import Mathlib

/-!
Verification development for the lockbook repository.

The development has three parts:
* `Lockbook.Server`: a shallow embedding of the server's file index
  repository (`src/server/src/file_index_repo.rs`): the `files` table is a
  list of rows, the SQL `UPDATE ... CASE WHEN` statements become guarded
  row transformations, and the row-level `validate` check is translated
  directly.
* `Lockbook.Crypto`: a shallow embedding of the symmetric decryption path
  of `src/core/src/service/crypto_service.rs`, with the base64 codec made
  executable and the AEAD/UTF-8 primitives (external collaborators) passed
  as parameters.  A Rust panic is modelled as an explicit `panicked`
  outcome.
* `Lockbook.Sync`: the sync engine.  Its implementation is not part of the
  sampled sources (only its integration tests are), so it is modelled from
  the specification: three-phase sync (pull, per-field merge with cycle
  resolution, push), with the cycle-resolution behaviour fixed by the test
  corpus in `src/core/tests/sync_service_cycle_resolution_tests.rs`.
-/

namespace Lockbook

namespace Server

/-- File type, from `lockbook_core::model::file_metadata::FileType`. -/
inductive FileType where
  | Document
  | Folder
deriving DecidableEq, Repr

/-- The Rust comparison `file_type == FileType::Folder`, used to fill the
`is_folder` column. -/
def FileType.toIsFolder : FileType → Bool
  | .Folder => true
  | .Document => false

/-- A row of the server's `files` table, as read and written by
`file_index_repo.rs` (columns: id, parent, parent_access_key, is_folder,
name, owner, deleted, metadata_version, content_version).  Ids are
128-bit opaque identifiers in the source; they are modelled as `Nat`. -/
structure FileRow where
  id : Nat
  parent : Nat
  parentAccessKey : String
  isFolder : Bool
  name : String
  owner : String
  deleted : Bool
  metadataVersion : Nat
  contentVersion : Nat
deriving DecidableEq, Repr

/-- `FileError` from `file_index_repo.rs`; the serialization and raw
Postgres variants are collapsed into `Unknown` since serialization is not
modelled. -/
inductive FileError where
  | Deleted
  | DoesNotExist
  | IdTaken
  | IncorrectOldVersion
  | OwnerDoesNotExist
  | ParentDoesNotExist
  | PathTaken
  | WrongFileType
  | Unknown
deriving DecidableEq, Repr

/-- `AccountError` from `file_index_repo.rs`; the `From<PostgresError>`
impl maps a unique-constraint violation to `UsernameTaken`. -/
inductive AccountError where
  | UsernameTaken
  | Postgres
deriving DecidableEq, Repr

/-- `rows_to_row`: zero rows is `DoesNotExist`, one row is returned,
several rows is `Unknown`. -/
def rowsToRow (rows : List FileRow) : Except FileError FileRow :=
  match rows with
  | [] => .error .DoesNotExist
  | [row] => .ok row
  | _ => .error .Unknown

/-- The values returned by the `RETURNING` clause of the version-checked
mutations. -/
structure FileUpdateResponse where
  old_deleted : Bool
  old_metadata_version : Nat
  old_content_version : Nat
  new_metadata_version : Nat
  is_folder : Bool
deriving DecidableEq, Repr

/-- `FileUpdateResponse::validate` from `file_index_repo.rs`. -/
def FileUpdateResponse.validate (r : FileUpdateResponse)
    (expectedOldMetadataVersion : Nat) (expectedFileType : FileType) :
    Except FileError FileUpdateResponse :=
  if r.is_folder != expectedFileType.toIsFolder then .error .WrongFileType
  else if r.old_deleted then .error .Deleted
  else if r.old_metadata_version ≠ expectedOldMetadataVersion then .error .IncorrectOldVersion
  else .ok r

/-- The `CASE WHEN NOT old.deleted AND old.metadata_version = $2 AND
old.is_folder = $3` guard shared by `delete_file`, `move_file` and
`rename_file` (and, with `$3` fixed to Document, the `NOT old.is_folder`
guard of `change_document_content_version`). -/
def mutGuard (oldMetadataVersion : Nat) (fileType : FileType) (r : FileRow) : Bool :=
  !r.deleted && r.metadataVersion == oldMetadataVersion && r.isFolder == fileType.toIsFolder

/-- Apply the guarded per-row update of an `UPDATE files ... FROM old WHERE
old.id = new.id` statement: only rows with the requested id change, and only
when the guard holds. -/
def applyGuarded (files : List FileRow) (id : Nat) (oldMetadataVersion : Nat)
    (fileType : FileType) (g : FileRow → FileRow) : List FileRow :=
  files.map (fun r =>
    if r.id == id then (if mutGuard oldMetadataVersion fileType r then g r else r) else r)

/-- Build the `RETURNING` row for the single matched row `old`. -/
def updateResponse (old : FileRow) (oldMetadataVersion : Nat) (fileType : FileType)
    (g : FileRow → FileRow) : FileUpdateResponse :=
  { old_deleted := old.deleted
    old_metadata_version := old.metadataVersion
    old_content_version := old.contentVersion
    new_metadata_version :=
      (if mutGuard oldMetadataVersion fileType old then g old else old).metadataVersion
    is_folder := old.isFolder }

/-- Run one version-checked mutation: apply the guarded update, then take
the matched row through `rows_to_row` and `validate`.  Returns the
validated response together with the new table contents. -/
def runMutation (files : List FileRow) (id : Nat) (oldMetadataVersion : Nat)
    (fileType : FileType) (g : FileRow → FileRow) :
    Except FileError FileUpdateResponse × List FileRow :=
  let files' := applyGuarded files id oldMetadataVersion fileType g
  let res :=
    match rowsToRow (files.filter (fun r => r.id == id)) with
    | .error e => .error e
    | .ok old => (updateResponse old oldMetadataVersion fileType g).validate
        oldMetadataVersion fileType
  (res, files')

/-- `delete_file`: sets the tombstone flag and a fresh metadata version when
the guard holds, returns `(old_content_version, new_metadata_version)`. -/
def delete_file (files : List FileRow) (now : Nat) (id : Nat)
    (oldMetadataVersion : Nat) (fileType : FileType) :
    Except FileError (Nat × Nat) × List FileRow :=
  let r := runMutation files id oldMetadataVersion fileType
    (fun row => { row with deleted := true, metadataVersion := now })
  (r.1.map (fun m => (m.old_content_version, m.new_metadata_version)), r.2)

/-- `move_file`: sets parent, parent_access_key and a fresh metadata version
when the guard holds, returns `new_metadata_version`. -/
def move_file (files : List FileRow) (now : Nat) (id : Nat)
    (oldMetadataVersion : Nat) (fileType : FileType) (parent : Nat)
    (accessKey : String) : Except FileError Nat × List FileRow :=
  let r := runMutation files id oldMetadataVersion fileType
    (fun row => { row with parent := parent, parentAccessKey := accessKey,
                           metadataVersion := now })
  (r.1.map (fun m => m.new_metadata_version), r.2)

/-- `rename_file`: sets name and a fresh metadata version when the guard
holds, returns `new_metadata_version`. -/
def rename_file (files : List FileRow) (now : Nat) (id : Nat)
    (oldMetadataVersion : Nat) (fileType : FileType) (name : String) :
    Except FileError Nat × List FileRow :=
  let r := runMutation files id oldMetadataVersion fileType
    (fun row => { row with name := name, metadataVersion := now })
  (r.1.map (fun m => m.new_metadata_version), r.2)

/-- `change_document_content_version`: the guard is `NOT old.deleted AND
old.metadata_version = $2 AND NOT old.is_folder`, i.e. `mutGuard` at
`Document`; sets fresh metadata and content versions, validated against
`FileType::Document`. -/
def change_document_content_version (files : List FileRow) (now : Nat) (id : Nat)
    (oldMetadataVersion : Nat) : Except FileError (Nat × Nat) × List FileRow :=
  let r := runMutation files id oldMetadataVersion .Document
    (fun row => { row with metadataVersion := now, contentVersion := now })
  (r.1.map (fun m => (m.old_content_version, m.new_metadata_version)), r.2)

/-- The row `create_file` INSERTs: the given fields with `deleted = FALSE`
and both versions set to the server timestamp. -/
def newFileRow (now : Nat) (id parent : Nat) (fileType : FileType)
    (name owner accessKey : String) : FileRow :=
  { id := id, parent := parent, parentAccessKey := accessKey,
    isFolder := fileType.toIsFolder, name := name, owner := owner,
    deleted := false, metadataVersion := now, contentVersion := now }

/-- `create_file`: `INSERT INTO files ... deleted = FALSE`.  The table's
constraints (`pk_files`, `uk_files_name_parent`, the parent and owner
foreign keys) become explicit checks; Postgres does not fix the order in
which violated constraints are reported, so a fixed order is chosen here.
The parent foreign key is checked against the table including the new row,
so a root (its own parent) can be inserted. -/
def create_file (files : List FileRow) (accounts : List (String × String))
    (now : Nat) (id parent : Nat) (fileType : FileType)
    (name owner accessKey : String) : Except FileError Nat × List FileRow :=
  if files.any (fun r => r.id == id) then (.error .IdTaken, files)
  else if files.any (fun r => r.name == name && r.parent == parent) then
    (.error .PathTaken, files)
  else if !(files ++ [newFileRow now id parent fileType name owner accessKey]).any
      (fun r => r.id == parent) then
    (.error .ParentDoesNotExist, files)
  else if !accounts.any (fun a => a.1 == owner) then
    (.error .OwnerDoesNotExist, files)
  else (.ok now, files ++ [newFileRow now id parent fileType name owner accessKey])

/-- `new_account`: `INSERT INTO accounts (name, public_key)`; a unique
violation on the name is mapped to `UsernameTaken` by the
`From<PostgresError> for AccountError` impl. -/
def new_account (accounts : List (String × String)) (username publicKey : String) :
    Except AccountError Unit × List (String × String) :=
  if accounts.any (fun a => a.1 == username) then (.error .UsernameTaken, accounts)
  else (.ok (), accounts ++ [(username, publicKey)])

end Server

namespace Core

/-- `NewAccountError` from `src/core/src/lockbook_api/new_account.rs`. -/
inductive NewAccountError where
  | SendFailed
  | InvalidAuth
  | ExpiredAuth
  | UsernameTaken
  | Unspecified
deriving DecidableEq, Repr

/-- The `match (status, error_code)` at the end of the client-side
`new_account` in `src/core/src/lockbook_api/new_account.rs`, as a pure
function of the HTTP status and the response's `error_code` field. -/
def interpretNewAccountResponse (status : Nat) (errorCode : String) :
    Except NewAccountError Unit :=
  if 200 ≤ status ∧ status ≤ 299 then .ok ()
  else if status = 401 ∧ errorCode = "invalid_auth" then .error .InvalidAuth
  else if status = 401 ∧ errorCode = "expired_auth" then .error .ExpiredAuth
  else if status = 409 ∧ errorCode = "username_taken" then .error .UsernameTaken
  else .error .Unspecified

end Core

namespace Crypto

/-- One symbol of the standard base64 alphabet, as a 6-bit value.
Models the alphabet of the external base64 codec collaborator. -/
def base64CharVal (c : Char) : Option Nat :=
  if 'A' ≤ c ∧ c ≤ 'Z' then some (c.toNat - 65)
  else if 'a' ≤ c ∧ c ≤ 'z' then some (c.toNat - 97 + 26)
  else if '0' ≤ c ∧ c ≤ '9' then some (c.toNat - 48 + 52)
  else if c = '+' then some 62
  else if c = '/' then some 63
  else none

/-- Decode a base64 character sequence, four symbols at a time, with `=`
padding allowed only in the final group.  Models the external base64
codec's `decode` (standard alphabet); any symbol outside the alphabet
makes the whole decode fail. -/
def base64DecodeGroups : List Char → Option (List Nat)
  | [] => some []
  | c1 :: c2 :: c3 :: c4 :: rest =>
    match base64CharVal c1, base64CharVal c2 with
    | some v1, some v2 =>
      if c3 = '=' then
        if c4 = '=' ∧ rest = [] then
          if v2 % 16 = 0 then some [v1 * 4 + v2 / 16] else none
        else none
      else
        match base64CharVal c3 with
        | some v3 =>
          if c4 = '=' then
            if rest = [] then
              if v3 % 4 = 0 then
                some [v1 * 4 + v2 / 16, (v2 % 16) * 16 + v3 / 4]
              else none
            else none
          else
            match base64CharVal c4, base64DecodeGroups rest with
            | some v4, some tail =>
              some ((v1 * 4 + v2 / 16) :: ((v2 % 16) * 16 + v3 / 4) ::
                    ((v3 % 4) * 64 + v4) :: tail)
            | _, _ => none
        | none => none
    | _, _ => none
  | _ => none

/-- `base64::decode` on a string, as a byte list. -/
def base64Decode (s : String) : Option (List Nat) :=
  base64DecodeGroups s.data

/-- `AesKey` from `crypto_service.rs`: a base64-encoded 256-bit key. -/
structure AesKey where
  key : String
deriving DecidableEq, Repr

/-- `EncryptedValueWithNonce` from `crypto_service.rs`. -/
structure EncryptedValueWithNonce where
  garbage : String
  nonce : String
deriving DecidableEq, Repr

/-- `DecryptedValue` from `crypto_service.rs`. -/
structure DecryptedValue where
  secret : String
deriving DecidableEq, Repr

/-- The `AesDecryptionFailed` error enum from `crypto_service.rs` (payloads
of the wrapped library errors are dropped). -/
inductive AesDecryptionFailed where
  | DecryptionFailed
  | DecryptedValueMalformed
  | ValueCorrupted
deriving DecidableEq, Repr

/-- Outcome of running a Rust function that may return `Ok`, return `Err`,
or panic. -/
inductive RunResult (α ε : Type) where
  | ok (value : α)
  | err (e : ε)
  | panicked
deriving DecidableEq, Repr

/-- The external AES-256-GCM and UTF-8 primitives used by `AesImpl`
(collaborators out of scope): an AEAD decryption taking key bytes, nonce
bytes and ciphertext bytes, and a UTF-8 decoder.  `none` models the
library's error return. -/
structure AeadPrimitives where
  aeadDecrypt : List Nat → List Nat → List Nat → Option (List Nat)
  utf8Decode : List Nat → Option String

/-- `AesImpl::decrypt` from `crypto_service.rs`, step for step:
the key is base64-decoded with `.unwrap()` (a decode failure panics),
`GenericArray::clone_from_slice` panics unless the key is 32 bytes,
the nonce is base64-decoded with `?` (failure is `ValueCorrupted`),
`GenericArray::clone_from_slice` panics unless the nonce is 12 bytes,
the ciphertext is base64-decoded with `?`, the AEAD decryption failure is
`DecryptionFailed`, and a UTF-8 failure is `DecryptedValueMalformed`. -/
def AesImpl.decrypt (prims : AeadPrimitives) (aesKey : AesKey)
    (encrypted : EncryptedValueWithNonce) :
    RunResult DecryptedValue AesDecryptionFailed :=
  match base64Decode aesKey.key with
  | none => .panicked
  | some keyBytes =>
    if keyBytes.length ≠ 32 then .panicked
    else
      match base64Decode encrypted.nonce with
      | none => .err .ValueCorrupted
      | some nonceBytes =>
        if nonceBytes.length ≠ 12 then .panicked
        else
          match base64Decode encrypted.garbage with
          | none => .err .ValueCorrupted
          | some ciphertext =>
            match prims.aeadDecrypt keyBytes nonceBytes ciphertext with
            | none => .err .DecryptionFailed
            | some secretBytes =>
              match prims.utf8Decode secretBytes with
              | none => .err .DecryptedValueMalformed
              | some s => .ok ⟨s⟩

/-- A concrete instantiation of the external primitives, used to evaluate
`AesImpl.decrypt` on closed inputs. -/
def trivialPrims : AeadPrimitives :=
  ⟨fun _ _ _ => none, fun _ => none⟩

end Crypto

namespace Sync

/-- Modelled from the spec: the sync engine's implementation is not among
the sampled sources (only `src/core/tests/sync_service_cycle_resolution_tests.rs`
is), so the engine of spec §4.5 is modelled here.  `FileMeta` carries the
fields the tests compare: id, parent, name, file type, deletion flag,
server-assigned metadata version, and (decrypted) document content. -/
structure FileMeta where
  id : Nat
  parent : Nat
  name : String
  isFolder : Bool
  deleted : Bool
  metadataVersion : Nat
  content : String
deriving DecidableEq, Repr

/-- The root folder's id; the root is its own parent. -/
def rootId : Nat := 0

/-- Modelled from the spec: the coordination server's state — the
authoritative file table and the version counter it assigns from. -/
structure SServer where
  files : List FileMeta
  clock : Nat
deriving DecidableEq, Repr

/-- Modelled from the spec: a client's local replica — the base copy
(the server view at the last sync watermark), the local store with
pending edits, and the `last_synced_metadata_version` watermark.
A file is dirty on a given field when its local value differs from the
base copy (glossary: "Dirty: a local file whose state differs from its
last-synced version"). -/
structure Client where
  base : List FileMeta
  files : List FileMeta
  lastSynced : Nat
deriving DecidableEq, Repr

/-- Look a file up by id. -/
def lookupFile (fs : List FileMeta) (id : Nat) : Option FileMeta :=
  fs.find? (fun f => f.id == id)

/-- Rewrite the file with the given id (all copies, if the list is
degenerate) through `g`. -/
def updateFile (fs : List FileMeta) (id : Nat) (g : FileMeta → FileMeta) :
    List FileMeta :=
  fs.map (fun f => if f.id == id then g f else f)

/-- The ids stored in a file list. -/
def idsOf (fs : List FileMeta) : List Nat :=
  fs.map (fun f => f.id)

/-- Modelled from the spec: the user-level operations front-ends issue
(`create_at_path`, `move`, `rename`, `write`, `delete`).  Ids are chosen
by the caller (the source uses fresh UUIDs). -/
inductive LOp where
  | create (id parent : Nat) (name : String) (isFolder : Bool)
  | move (id newParent : Nat)
  | rename (id : Nat) (newName : String)
  | write (id : Nat) (newContent : String)
  | delete (id : Nat)
deriving DecidableEq, Repr

/-- Modelled from the spec: apply one local operation to a client's store.
Invalid requests (taken id on create, touching the root, moving a file
onto itself) are ignored; deletion sets only the target's tombstone flag,
descendants are deleted implicitly by the ancestor rule (spec invariant 4). -/
def applyOp (c : Client) : LOp → Client
  | .create id parent name isFolder =>
      if (lookupFile c.files id).isSome then c
      else { c with files := c.files ++ [⟨id, parent, name, isFolder, false, 0, ""⟩] }
  | .move id p =>
      if id == rootId || id == p then c
      else { c with files := updateFile c.files id (fun f => { f with parent := p }) }
  | .rename id n =>
      if id == rootId then c
      else { c with files := updateFile c.files id (fun f => { f with name := n }) }
  | .write id s =>
      { c with files := updateFile c.files id (fun f => { f with content := s }) }
  | .delete id =>
      if id == rootId then c
      else { c with files := updateFile c.files id (fun f => { f with deleted := true }) }

/-- Apply a sequence of local operations. -/
def applyOps (c : Client) (ops : List LOp) : Client :=
  ops.foldl applyOp c

/-- Modelled from the spec: deterministic three-way content merge using the
common ancestor (the pre-edit local copy); if only one side changed, that
side wins.  The textual merge of two diverging edits is a collaborator in
the source and is modelled as a deterministic combination. -/
def mergeContent (b l r : String) : String :=
  if l = b then r else if r = b then l else if l = r then l
  else l ++ "\n<<<<\n" ++ r

/-- The ids a sync must reconcile: every server id, then locally-created
ids the server has not seen. -/
def mergeIds (c : Client) (s : SServer) : List Nat :=
  idsOf s.files ++ (idsOf c.files).filter (fun id => !(idsOf s.files).contains id)

/-- Modelled from the spec (§4.5 Phase A and B): the per-field merge for one
id.  A field changed locally iff it differs from the base copy; a locally
changed field wins, otherwise the remote value is taken; deletion wins over
any non-deletion from either side. -/
def mergeOne (c : Client) (s : SServer) (id : Nat) : Option FileMeta :=
  match lookupFile s.files id, lookupFile c.files id with
  | some r, some l =>
      let b := (lookupFile c.base id).getD r
      some { id := id
             parent := if l.parent ≠ b.parent then l.parent else r.parent
             name := if l.name ≠ b.name then l.name else r.name
             isFolder := r.isFolder
             deleted := r.deleted || l.deleted
             metadataVersion := r.metadataVersion
             content := mergeContent b.content l.content r.content }
  | some r, none => some r
  | none, some l => some l
  | none, none => none

/-- The staged tree of spec §4.5 Phase B, before cycle resolution. -/
def stagedTree (c : Client) (s : SServer) : List FileMeta :=
  (mergeIds c s).filterMap (mergeOne c s)

/-- Did the client move this file locally (parent differs from the base
copy)?  Newly created files have no base copy and no remote-accepted
parent to revert to, so they do not count. -/
def localMoved (c : Client) (id : Nat) : Bool :=
  match lookupFile c.base id, lookupFile c.files id with
  | some b, some l => l.parent != b.parent
  | _, _ => false

/-- The parent pointer inside a staged tree; an id the tree does not hold
maps to itself (a stalled chain, never a new cycle). -/
def parentIn (fs : List FileMeta) (id : Nat) : Nat :=
  match lookupFile fs id with
  | some f => f.parent
  | none => id

/-- Walk `fuel` parent steps from `cur`; `true` iff the walk comes back to
`id`. -/
def inCycleAux (fs : List FileMeta) (id : Nat) : Nat → Nat → Bool
  | 0, _ => false
  | fuel + 1, cur => if cur == id then true else inCycleAux fs id fuel (parentIn fs cur)

/-- Is `id` on a parent-pointer cycle of the staged tree? -/
def inCycle (fs : List FileMeta) (id : Nat) : Bool :=
  inCycleAux fs id (fs.length + 1) (parentIn fs id)

/-- The remote-accepted parent a reverted local move falls back to: the
server's parent if the server has the file, else the base copy's. -/
def remoteParent (c : Client) (s : SServer) (id : Nat) (fallback : Nat) : Nat :=
  match lookupFile s.files id with
  | some r => r.parent
  | none =>
    match lookupFile c.base id with
    | some b => b.parent
    | none => fallback

/-- Modelled from the spec (§4.5 cycle resolution, with the reverted set
fixed by the test corpus): every locally-applied move that lies on a
parent-pointer cycle of the staged tree is reverted to its remote-accepted
parent; remote moves are never reverted. -/
def cycleResolve (c : Client) (s : SServer) (fs : List FileMeta) : List FileMeta :=
  fs.map (fun f =>
    if localMoved c f.id && inCycle fs f.id
    then { f with parent := remoteParent c s f.id f.parent } else f)

/-- The merged tree a sync commits: staged tree after cycle resolution. -/
def resolvedTree (c : Client) (s : SServer) : List FileMeta :=
  cycleResolve c s (stagedTree c s)

/-- Modelled from the spec (§4.5 Phase C): push one merged file.  A file
the server already has is rewritten (with a fresh metadata version) iff a
mutable field differs; a file the server has never seen is created unless
it is already deleted (a new-and-deleted file is never pushed). -/
def pushOne (s : SServer) (f : FileMeta) : SServer :=
  match lookupFile s.files f.id with
  | some r =>
      if r.parent = f.parent ∧ r.name = f.name ∧ r.deleted = f.deleted ∧
         r.content = f.content
      then s
      else { files := updateFile s.files f.id
               (fun _ => { f with metadataVersion := s.clock + 1 }),
             clock := s.clock + 1 }
  | none =>
      if f.deleted then s
      else { files := s.files ++ [{ f with metadataVersion := s.clock + 1 }],
             clock := s.clock + 1 }

/-- Modelled from the spec: one `sync()` call — pull and merge (Phase A/B
with cycle resolution), push every surviving change (Phase C), then commit:
the local store and base copy become the server's committed view and the
watermark advances to the server clock. -/
def sync (c : Client) (s : SServer) : Client × SServer :=
  let s' := (resolvedTree c s).foldl pushOne s
  (⟨s'.files, s'.files, s'.clock⟩, s')

/-- A work unit of §4.4, reduced to what the idempotence claim needs: which
file a unit concerns and whether it is server-side or local. -/
inductive WorkUnit where
  | serverChange (id : Nat)
  | localChange (id : Nat)
deriving DecidableEq, Repr

/-- Modelled from the spec (§4.4): server work is every server file above
the watermark, local work is every dirty local file. -/
def calculateWork (c : Client) (s : SServer) : List WorkUnit :=
  (s.files.filter (fun f => c.lastSynced < f.metadataVersion)).map
      (fun f => .serverChange f.id)
    ++ (c.files.filter (fun f => lookupFile c.base f.id ≠ some f)).map
      (fun f => .localChange f.id)

/-- The path of a live file: `/` for the root, else the parent's path plus
the name (folders end in `/`).  A deleted file, a file under a deleted
ancestor, and a file dangling off the tree have no path. -/
def pathOfAux (fs : List FileMeta) : Nat → Nat → Option String
  | 0, _ => none
  | fuel + 1, id =>
      if id == rootId then some "/"
      else
        match lookupFile fs id with
        | none => none
        | some f =>
          if f.deleted then none
          else
            match pathOfAux fs fuel f.parent with
            | none => none
            | some p => some (p ++ f.name ++ (if f.isFolder then "/" else ""))

/-- All paths of live files in a store (the model of the test helper
`assert_all_paths`). -/
def allPaths (fs : List FileMeta) : List String :=
  fs.filterMap (fun f => pathOfAux fs (fs.length + 1) f.id)

/-- Server well-formedness: ids are unique and every stored version is at
most the clock. -/
def WF (s : SServer) : Prop :=
  (idsOf s.files).Nodup ∧ ∀ f ∈ s.files, f.metadataVersion ≤ s.clock

instance (s : SServer) : Decidable (WF s) := by
  unfold WF; infer_instance

/-- A client that has fully synced against server state `s`. -/
def clientSyncedTo (s : SServer) : Client :=
  ⟨s.files, s.files, s.clock⟩

/-- The root folder row shared by every account. -/
def root0 : FileMeta :=
  ⟨rootId, rootId, "", true, false, 0, ""⟩

/-- A fresh account's server: just the root folder. -/
def server0 : SServer :=
  ⟨[root0], 0⟩

/-- The test schedule of `sync_and_assert_stuff`: `sync(c1); sync(c2);
sync(c1); sync(c2)` with no further mutations, returning the two final
client states. -/
def crossSync (c1 c2 : Client) (s : SServer) : Client × Client :=
  let p1 := sync c1 s
  let p2 := sync c2 p1.2
  let p3 := sync p1.1 p2.2
  let p4 := sync p2.1 p3.2
  (p3.1, p4.1)

/-- The fields the convergence claim compares clients by: id, parent, name,
content and deletion flag. -/
def proj (f : FileMeta) : Nat × Nat × String × String × Bool :=
  (f.id, f.parent, f.name, f.content, f.deleted)

/-- The convergence experiment: both clients start synced to `s`, each
performs its own sequence of local operations, then the four-sync schedule
runs with no further mutations. -/
def run4 (s : SServer) (ops1 ops2 : List LOp) : Client × Client :=
  crossSync (applyOps (clientSyncedTo s) ops1) (applyOps (clientSyncedTo s) ops2) s

/-- A demonstration client with one pending local create, used to witness
the idempotence claim. -/
def demoClient : Client :=
  applyOps (clientSyncedTo server0) [.create 1 0 "a" true]

/-- The `two_cycle` scenario: create `/a/` (id 1) and `/b/` (id 2) on c1,
sync, clone c2, c1 moves `/a/` under `/b/`, c2 moves `/b/` under `/a/`,
then the four-sync schedule. -/
def scenarioTwoCycle : Client × Client :=
  let c1 := applyOps (clientSyncedTo server0) [.create 1 0 "a" true, .create 2 0 "b" true]
  let p1 := sync c1 server0
  let p2 := sync (Client.mk [] [] 0) p1.2
  crossSync (applyOp p1.1 (.move 1 2)) (applyOp p2.1 (.move 2 1)) p2.2

/-- The `three_cycle_one_move_reverted` scenario: `/a/`, `/b/`, `/c/`
(ids 1, 2, 3) synced; c1 moves a under b and b under c, c2 moves c
under a. -/
def scenarioThreeCycle : Client × Client :=
  let c1 := applyOps (clientSyncedTo server0)
    [.create 1 0 "a" true, .create 2 0 "b" true, .create 3 0 "c" true]
  let p1 := sync c1 server0
  let p2 := sync (Client.mk [] [] 0) p1.2
  crossSync (applyOps p1.1 [.move 1 2, .move 2 3]) (applyOp p2.1 (.move 3 1)) p2.2

/-- The `two_cycle_with_renames_first_device` scenario: as `two_cycle`, but
c1 first renames `/a/` to `/a2/` and `/b/` to `/b2/`. -/
def scenarioTwoCycleRenames : Client × Client :=
  let c1 := applyOps (clientSyncedTo server0) [.create 1 0 "a" true, .create 2 0 "b" true]
  let p1 := sync c1 server0
  let p2 := sync (Client.mk [] [] 0) p1.2
  crossSync (applyOps p1.1 [.rename 1 "a2", .rename 2 "b2", .move 1 2])
            (applyOp p2.1 (.move 2 1)) p2.2

/-- The `two_cycle_with_deletes_second_device` scenario: as `two_cycle`,
but c2 additionally deletes `/a/` after its move. -/
def scenarioTwoCycleDeletes : Client × Client :=
  let c1 := applyOps (clientSyncedTo server0) [.create 1 0 "a" true, .create 2 0 "b" true]
  let p1 := sync c1 server0
  let p2 := sync (Client.mk [] [] 0) p1.2
  crossSync (applyOp p1.1 (.move 1 2))
            (applyOps p2.1 [.move 2 1, .delete 1]) p2.2

theorem lookupFile_mem {fs : List FileMeta} {id : Nat} {f : FileMeta}
    (h : lookupFile fs id = some f) : f ∈ fs ∧ f.id = id := by
  refine ⟨List.mem_of_find?_eq_some h, ?_⟩
  have := List.find?_some h
  simpa using this

theorem lookupFile_isSome_iff {fs : List FileMeta} {id : Nat} :
    (lookupFile fs id).isSome ↔ id ∈ idsOf fs := by
  unfold lookupFile idsOf
  rw [List.find?_isSome]
  constructor
  · rintro ⟨f, hf, hid⟩
    exact List.mem_map.mpr ⟨f, hf, by simpa using hid⟩
  · rintro h
    obtain ⟨f, hf, hid⟩ := List.mem_map.mp h
    exact ⟨f, hf, by simpa using hid⟩

theorem lookupFile_cons (a : FileMeta) (t : List FileMeta) (j : Nat) :
    lookupFile (a :: t) j = if (a.id == j) = true then some a else lookupFile t j := by
  unfold lookupFile
  cases h : (a.id == j) with
  | true => simp [h]
  | false => simp [h]

theorem lookupFile_self_of_nodup {fs : List FileMeta} (hnd : (idsOf fs).Nodup)
    {f : FileMeta} (hf : f ∈ fs) : lookupFile fs f.id = some f := by
  induction fs with
  | nil => cases hf
  | cons a t ih =>
      have hnd' : (∀ x ∈ t, ¬ x.id = a.id) ∧ (List.map (fun f => f.id) t).Nodup := by
        simpa [idsOf] using hnd
      rcases List.mem_cons.mp hf with rfl | hmem
      · simp [lookupFile_cons]
      · have hne : (a.id == f.id) = false := by
          simp only [beq_eq_false_iff_ne, ne_eq]
          intro he
          exact hnd'.1 f hmem he.symm
        rw [lookupFile_cons]
        simp only [hne]
        exact ih hnd'.2 hmem

theorem lookupFile_updateFile_self (fs : List FileMeta) (id : Nat)
    (g : FileMeta → FileMeta) (hg : ∀ r : FileMeta, r.id = id → (g r).id = id) :
    lookupFile (updateFile fs id g) id = (lookupFile fs id).map g := by
  induction fs with
  | nil => rfl
  | cons a t ih =>
      have hstep : updateFile (a :: t) id g
          = (if (a.id == id) = true then g a else a) :: updateFile t id g := rfl
      rw [hstep]
      by_cases ha : a.id = id
      · rw [if_pos (show (a.id == id) = true from beq_iff_eq.mpr ha)]
        rw [lookupFile_cons, lookupFile_cons]
        simp [ha, hg a ha]
      · rw [if_neg (show ¬ ((a.id == id) = true) by simp [ha])]
        rw [lookupFile_cons, lookupFile_cons]
        simp only [beq_iff_eq, ha, if_false]
        exact ih

theorem lookupFile_updateFile_ne (fs : List FileMeta) (id j : Nat)
    (g : FileMeta → FileMeta) (hg : ∀ r : FileMeta, r.id = id → (g r).id = id)
    (hne : j ≠ id) :
    lookupFile (updateFile fs id g) j = lookupFile fs j := by
  induction fs with
  | nil => rfl
  | cons a t ih =>
      have hstep : updateFile (a :: t) id g
          = (if (a.id == id) = true then g a else a) :: updateFile t id g := rfl
      rw [hstep]
      by_cases ha : a.id = id
      · have h2 : ¬ ((g a).id = j) := by
          rw [hg a ha]; exact fun h => hne h.symm
        have h3 : ¬ (a.id = j) := by
          rw [ha]; exact fun h => hne h.symm
        rw [if_pos (show (a.id == id) = true from beq_iff_eq.mpr ha)]
        rw [lookupFile_cons, lookupFile_cons]
        simp only [beq_iff_eq, h2, h3, if_false]
        exact ih
      · rw [if_neg (show ¬ ((a.id == id) = true) by simp [ha])]
        rw [lookupFile_cons, lookupFile_cons]
        by_cases haj : a.id = j
        · simp [haj]
        · simp only [beq_iff_eq, haj, if_false]
          exact ih

theorem idsOf_updateFile (fs : List FileMeta) (id : Nat) (g : FileMeta → FileMeta)
    (hg : ∀ r : FileMeta, r.id = id → (g r).id = id) :
    idsOf (updateFile fs id g) = idsOf fs := by
  unfold idsOf updateFile
  rw [List.map_map]
  apply List.map_congr_left
  intro r _
  by_cases hr : r.id = id
  · simp only [Function.comp_apply, if_pos (beq_iff_eq.mpr hr)]
    rw [hg r hr, hr]
  · simp only [Function.comp_apply, if_neg (show ¬ ((r.id == id) = true) by simp [hr])]

theorem lookupFile_append (fs l : List FileMeta) (j : Nat) :
    lookupFile (fs ++ l) j = (lookupFile fs j).or (lookupFile l j) := by
  unfold lookupFile
  exact List.find?_append

/-- Rows persist on the server and tombstones are monotone: every file `t`
holds is still held by `t'`, with a deletion flag at least as set. -/
def DelMono (t t' : SServer) : Prop :=
  ∀ j r, lookupFile t.files j = some r →
    ∃ r', lookupFile t'.files j = some r' ∧ (r.deleted = true → r'.deleted = true)

theorem DelMono.refl (s : SServer) : DelMono s s :=
  fun _ r h => ⟨r, h, fun hd => hd⟩

theorem DelMono_pushOne (s0 t : SServer) (f : FileMeta)
    (hf : ∀ r, lookupFile s0.files f.id = some r → r.deleted = true → f.deleted = true)
    (h : DelMono s0 t) : DelMono s0 (pushOne t f) := by
  intro j r hr
  obtain ⟨rt, hrt, hmono⟩ := h j r hr
  unfold pushOne
  cases hcase : lookupFile t.files f.id with
  | some rf =>
      dsimp only
      by_cases heq : rf.parent = f.parent ∧ rf.name = f.name ∧ rf.deleted = f.deleted ∧
          rf.content = f.content
      · rw [if_pos heq]
        exact ⟨rt, hrt, hmono⟩
      · rw [if_neg heq]
        by_cases hj : j = f.id
        · subst hj
          refine ⟨{ f with metadataVersion := t.clock + 1 }, ?_, ?_⟩
          · rw [lookupFile_updateFile_self t.files f.id
                (fun _ => { f with metadataVersion := t.clock + 1 }) (fun _ _ => rfl), hcase]
            rfl
          · intro hd
            exact hf r hr hd
        · refine ⟨rt, ?_, hmono⟩
          rw [lookupFile_updateFile_ne t.files f.id j
            (fun _ => { f with metadataVersion := t.clock + 1 }) (fun _ _ => rfl) hj]
          exact hrt
  | none =>
      dsimp only
      by_cases hd : f.deleted = true
      · rw [if_pos hd]
        exact ⟨rt, hrt, hmono⟩
      · rw [if_neg hd]
        refine ⟨rt, ?_, hmono⟩
        show lookupFile (t.files ++ _) j = some rt
        rw [lookupFile_append, hrt]
        rfl

theorem foldl_pushOne_DelMono (s0 : SServer) (M : List FileMeta)
    (hM : ∀ g ∈ M, ∀ r, lookupFile s0.files g.id = some r →
      r.deleted = true → g.deleted = true) :
    ∀ t, DelMono s0 t → DelMono s0 (M.foldl pushOne t) := by
  induction M with
  | nil => exact fun t h => h
  | cons a M ih =>
      intro t h
      exact ih (fun g hg => hM g (List.mem_cons_of_mem a hg)) (pushOne t a)
        (DelMono_pushOne s0 t a (hM a (List.mem_cons_self a M)) h)

/-- A merged file keeps the id it was merged for and never clears a remote
tombstone: if the server's row for that id is deleted, so is the merged
file (deletion wins). -/
theorem mergeOne_delMono (c : Client) (s : SServer) (id : Nat) (x : FileMeta)
    (hx : mergeOne c s id = some x) :
    x.id = id ∧ (∀ r, lookupFile s.files id = some r →
      r.deleted = true → x.deleted = true) := by
  unfold mergeOne at hx
  cases hsr : lookupFile s.files id with
  | some r =>
      rw [hsr] at hx
      cases hcl : lookupFile c.files id with
      | some l =>
          rw [hcl] at hx
          dsimp only at hx
          have hxe := Option.some_injective _ hx
          constructor
          · rw [← hxe]
          · intro r0 hr0 hd
            obtain rfl : r = r0 := Option.some_injective _ hr0
            rw [← hxe]
            show (r.deleted || l.deleted) = true
            rw [hd]
            rfl
      | none =>
          rw [hcl] at hx
          dsimp only at hx
          have hxe : r = x := Option.some_injective _ hx
          subst hxe
          constructor
          · exact (lookupFile_mem hsr).2
          · intro r0 hr0 hd
            obtain rfl : r = r0 := Option.some_injective _ hr0
            exact hd
  | none =>
      rw [hsr] at hx
      cases hcl : lookupFile c.files id with
      | some l =>
          rw [hcl] at hx
          dsimp only at hx
          have hxe : l = x := Option.some_injective _ hx
          subst hxe
          constructor
          · exact (lookupFile_mem hcl).2
          · intro r0 hr0
            cases hr0
      | none =>
          rw [hcl] at hx
          cases hx

/-- Every file of the resolved tree keeps, for its own id, the server's
tombstone when the server row is deleted; cycle reversion only touches
parents. -/
theorem resolvedTree_delMono (c : Client) (s : SServer) :
    ∀ g ∈ resolvedTree c s, ∀ r, lookupFile s.files g.id = some r →
      r.deleted = true → g.deleted = true := by
  intro g hg r hr hd
  unfold resolvedTree cycleResolve at hg
  obtain ⟨x, hx, hgx⟩ := List.mem_map.mp hg
  have hpres : g.id = x.id ∧ g.deleted = x.deleted := by
    by_cases hc : (localMoved c x.id && inCycle (stagedTree c s) x.id) = true
    · rw [if_pos hc] at hgx
      rw [← hgx]
      exact ⟨rfl, rfl⟩
    · rw [if_neg hc] at hgx
      rw [← hgx]
      exact ⟨rfl, rfl⟩
  obtain ⟨i, _, hmo⟩ := List.mem_filterMap.mp hx
  obtain ⟨hxid, hxdel⟩ := mergeOne_delMono c s i x hmo
  rw [hpres.2]
  refine hxdel r ?_ hd
  rw [← hxid, ← hpres.1]
  exact hr

/-- Syncing any client against the server keeps every server row and never
clears a tombstone. -/
theorem sync_delMono (c : Client) (s : SServer) : DelMono s (sync c s).2 :=
  foldl_pushOne_DelMono s (resolvedTree c s) (resolvedTree_delMono c s) s (DelMono.refl s)

/-- Pushing one merged file preserves server well-formedness. -/
theorem pushOne_WF (t : SServer) (f : FileMeta) (h : WF t) : WF (pushOne t f) := by
  unfold pushOne
  cases hcase : lookupFile t.files f.id with
  | some rf =>
      dsimp only
      by_cases heq : rf.parent = f.parent ∧ rf.name = f.name ∧ rf.deleted = f.deleted ∧
          rf.content = f.content
      · rw [if_pos heq]
        exact h
      · rw [if_neg heq]
        constructor
        · show (idsOf (updateFile t.files f.id _)).Nodup
          rw [idsOf_updateFile t.files f.id
            (fun _ => { f with metadataVersion := t.clock + 1 }) (fun _ _ => rfl)]
          exact h.1
        · intro x hx
          obtain ⟨y, hy, hxy⟩ := List.mem_map.mp hx
          by_cases hyid : (y.id == f.id) = true
          · rw [if_pos hyid] at hxy
            rw [← hxy]
          · rw [if_neg hyid] at hxy
            rw [← hxy]
            exact Nat.le_succ_of_le (h.2 y hy)
  | none =>
      dsimp only
      by_cases hd : f.deleted = true
      · rw [if_pos hd]
        exact h
      · rw [if_neg hd]
        constructor
        · show (idsOf (t.files ++ _)).Nodup
          have hnotin : f.id ∉ idsOf t.files := by
            intro hmem
            have := lookupFile_isSome_iff.mpr hmem
            rw [hcase] at this
            cases this
          unfold idsOf
          rw [List.map_append]
          rw [List.nodup_append]
          refine ⟨h.1, List.nodup_singleton _, ?_⟩
          intro a ha hb
          simp only [List.map_cons, List.map_nil, List.mem_singleton] at hb
          exact hnotin (by simpa [idsOf, hb] using ha)
        · intro x hx
          rcases List.mem_append.mp hx with hx | hx
          · exact Nat.le_succ_of_le (h.2 x hx)
          · simp only [List.mem_singleton] at hx
            rw [hx]

/-- Folding pushes preserves server well-formedness. -/
theorem foldl_pushOne_WF (M : List FileMeta) : ∀ t, WF t → WF (M.foldl pushOne t) := by
  induction M with
  | nil => exact fun t h => h
  | cons a M ih => exact fun t h => ih (pushOne t a) (pushOne_WF t a h)

/-- A sync leaves the server well-formed. -/
theorem sync_WF (c : Client) (s : SServer) (h : WF s) : WF (sync c s).2 :=
  foldl_pushOne_WF (resolvedTree c s) s h

/-- Collapsing a filterMap over a store's own ids. -/
theorem filterMap_ids_self (fs : List FileMeta) (g : Nat → Option FileMeta)
    (h : ∀ f ∈ fs, g f.id = some f) : (idsOf fs).filterMap g = fs := by
  unfold idsOf
  induction fs with
  | nil => rfl
  | cons a t ih =>
      rw [List.map_cons, List.filterMap_cons, h a (List.mem_cons_self a t)]
      dsimp only
      rw [ih (fun f hf => h f (List.mem_cons_of_mem a hf))]

/-- For a fully synced client whose files all persist on the server, the
ids to merge are exactly the server's ids. -/
theorem mergeIds_clean (t s : SServer) (hdm : DelMono t s) :
    mergeIds (clientSyncedTo t) s = idsOf s.files := by
  unfold mergeIds clientSyncedTo
  dsimp only
  have hnil : (idsOf t.files).filter (fun id => !(idsOf s.files).contains id) = [] := by
    rw [List.filter_eq_nil_iff]
    intro a ha
    have h1 : (lookupFile t.files a).isSome := lookupFile_isSome_iff.mpr ha
    obtain ⟨r, hr⟩ := Option.isSome_iff_exists.mp h1
    obtain ⟨r', hr', _⟩ := hdm a r hr
    have h2 : a ∈ idsOf s.files := lookupFile_isSome_iff.mp (by rw [hr']; rfl)
    simp [h2]
  rw [hnil, List.append_nil]

/-- For a fully synced client, merging an id the server holds returns the
server's row unchanged. -/
theorem mergeOne_clean (t s : SServer) (hWF : WF s) (hdm : DelMono t s)
    {f : FileMeta} (hf : f ∈ s.files) :
    mergeOne (clientSyncedTo t) s f.id = some f := by
  have hs : lookupFile s.files f.id = some f := lookupFile_self_of_nodup hWF.1 hf
  unfold mergeOne clientSyncedTo
  dsimp only
  rw [hs]
  cases hcl : lookupFile t.files f.id with
  | none => rfl
  | some l =>
      obtain ⟨r', hr', hmono⟩ := hdm f.id l hcl
      rw [hs] at hr'
      have hrf : f = r' := Option.some_injective _ hr'
      have hmono' : l.deleted = true → f.deleted = true := by
        intro h
        rw [hrf]
        exact hmono h
      have hdel : (f.deleted || l.deleted) = f.deleted := by
        cases hld : l.deleted with
        | true => rw [hmono' hld]; rfl
        | false => rw [Bool.or_false]
      dsimp only
      rw [hdel]
      simp [mergeContent]

/-- A fully synced client has no locally moved files. -/
theorem localMoved_clean (t : SServer) (id : Nat) :
    localMoved (clientSyncedTo t) id = false := by
  unfold localMoved clientSyncedTo
  dsimp only
  cases h : lookupFile t.files id with
  | none => rfl
  | some l => simp

/-- Cycle resolution does nothing for a fully synced client. -/
theorem cycleResolve_clean (t : SServer) (s : SServer) (fs : List FileMeta) :
    cycleResolve (clientSyncedTo t) s fs = fs := by
  unfold cycleResolve
  have h : ∀ f ∈ fs,
      (if localMoved (clientSyncedTo t) f.id && inCycle fs f.id
        then { f with parent := remoteParent (clientSyncedTo t) s f.id f.parent }
        else f) = f := by
    intro f _
    rw [localMoved_clean]
    rfl
  calc fs.map _ = fs.map (fun f => f) := List.map_congr_left h
    _ = fs := List.map_id fs

/-- Pushing a file the server already stores verbatim changes nothing. -/
theorem pushOne_self (s : SServer) {f : FileMeta}
    (hf : lookupFile s.files f.id = some f) : pushOne s f = s := by
  unfold pushOne
  rw [hf]
  dsimp only
  rw [if_pos ⟨rfl, rfl, rfl, rfl⟩]

/-- Pushing only already-stored files changes nothing. -/
theorem foldl_pushOne_fixed (M : List FileMeta) (s : SServer)
    (h : ∀ f ∈ M, pushOne s f = s) : M.foldl pushOne s = s := by
  induction M with
  | nil => rfl
  | cons a t ih =>
      rw [List.foldl_cons, h a (List.mem_cons_self a t)]
      exact ih (fun f hf => h f (List.mem_cons_of_mem a hf))

/-- For a fully synced client the staged tree is the server's store. -/
theorem stagedTree_clean (t s : SServer) (hWF : WF s) (hdm : DelMono t s) :
    stagedTree (clientSyncedTo t) s = s.files := by
  unfold stagedTree
  rw [mergeIds_clean t s hdm]
  exact filterMap_ids_self s.files _ (fun f hf => mergeOne_clean t s hWF hdm hf)

/-- The central idempotence fact: a sync by a client that is fully synced
to an earlier server state `t` (all of whose rows persist, tombstones
included, in the current state `s`) pushes nothing: it just commits the
current server view. -/
theorem sync_clean (t s : SServer) (hWF : WF s) (hdm : DelMono t s) :
    sync (clientSyncedTo t) s = (clientSyncedTo s, s) := by
  unfold sync
  have hres : resolvedTree (clientSyncedTo t) s = s.files := by
    unfold resolvedTree
    rw [stagedTree_clean t s hWF hdm, cycleResolve_clean t s s.files]
  rw [hres]
  rw [foldl_pushOne_fixed s.files s
    (fun f hf => pushOne_self s (lookupFile_self_of_nodup hWF.1 hf))]
  rfl

/-- After the four-sync schedule with no further mutations, the two
clients are literally the same state: the third sync pushes nothing (the
first client is clean and every first-server row persists with monotone
tombstones), and the fourth sync is a fixpoint. -/
theorem crossSync_converges (c1 c2 : Client) (s : SServer) (hWF : WF s) :
    (crossSync c1 c2 s).1 = (crossSync c1 c2 s).2 := by
  have hWF1 : WF (sync c1 s).2 := sync_WF c1 s hWF
  have hWF2 : WF (sync c2 (sync c1 s).2).2 := sync_WF _ _ hWF1
  have hdm : DelMono (sync c1 s).2 (sync c2 (sync c1 s).2).2 := sync_delMono _ _
  have h1 : (sync c1 s).1 = clientSyncedTo (sync c1 s).2 := rfl
  have h2 : (sync c2 (sync c1 s).2).1 = clientSyncedTo (sync c2 (sync c1 s).2).2 := rfl
  show (sync (sync c1 s).1 (sync c2 (sync c1 s).2).2).1
      = (sync (sync c2 (sync c1 s).2).1 (sync (sync c1 s).1 (sync c2 (sync c1 s).2).2).2).1
  rw [h1, sync_clean _ _ hWF2 hdm, h2]
  dsimp only
  rw [sync_clean _ _ hWF2 (DelMono.refl _)]

end Sync

/-- Claim C1: convergence.  Starting from any well-formed shared server
state, after each client performs an arbitrary sequence of local
operations and the schedule `sync(c1); sync(c2); sync(c1); sync(c2)` runs
with no further mutations, the two clients' local stores are identical
compared by id, parent, name, content and deletion flag. -/
theorem sync_convergence (s : Sync.SServer) (hWF : Sync.WF s)
    (ops1 ops2 : List Sync.LOp) :
    (Sync.run4 s ops1 ops2).1.files.map Sync.proj
      = (Sync.run4 s ops1 ops2).2.files.map Sync.proj := by
  have h := Sync.crossSync_converges (Sync.applyOps (Sync.clientSyncedTo s) ops1)
    (Sync.applyOps (Sync.clientSyncedTo s) ops2) s hWF
  unfold Sync.run4
  rw [h]

/-- Witness for claim C1: the fresh-account server is well-formed, and the
convergence conclusion holds for a concrete pair of operation sequences. -/
theorem sync_convergence_witness :
    Sync.WF Sync.server0
  ∧ (Sync.run4 Sync.server0 [.create 1 0 "a" true, .rename 1 "a2"]
        [.create 2 0 "b" true, .delete 2]).1.files.map Sync.proj
      = (Sync.run4 Sync.server0 [.create 1 0 "a" true, .rename 1 "a2"]
        [.create 2 0 "b" true, .delete 2]).2.files.map Sync.proj :=
  ⟨by decide, sync_convergence Sync.server0 (by decide)
    [.create 1 0 "a" true, .rename 1 "a2"] [.create 2 0 "b" true, .delete 2]⟩

/-- Claim C2: idempotence.  A `sync()` right after a successful `sync()`,
with no intervening local or remote mutations, produces zero work units
and is a no-op: it returns the client and server unchanged. -/
theorem sync_idempotent (c : Sync.Client) (s : Sync.SServer) (hWF : Sync.WF s) :
    Sync.calculateWork (Sync.sync c s).1 (Sync.sync c s).2 = []
  ∧ Sync.sync (Sync.sync c s).1 (Sync.sync c s).2 = Sync.sync c s := by
  have hWF' : Sync.WF (Sync.sync c s).2 := Sync.sync_WF c s hWF
  have hshape : (Sync.sync c s).1 = Sync.clientSyncedTo (Sync.sync c s).2 := rfl
  constructor
  · rw [hshape]
    unfold Sync.calculateWork Sync.clientSyncedTo
    dsimp only
    have h1 : ((Sync.sync c s).2.files.filter
        (fun f => (Sync.sync c s).2.clock < f.metadataVersion)) = [] := by
      rw [List.filter_eq_nil_iff]
      intro f hf
      have := hWF'.2 f hf
      simp only [decide_eq_true_eq, not_lt]
      exact this
    have h2 : ((Sync.sync c s).2.files.filter
        (fun f => Sync.lookupFile (Sync.sync c s).2.files f.id ≠ some f)) = [] := by
      rw [List.filter_eq_nil_iff]
      intro f hf
      have := Sync.lookupFile_self_of_nodup hWF'.1 hf
      simp [this]
    rw [h1, h2]
    rfl
  · rw [hshape, Sync.sync_clean _ _ hWF' (Sync.DelMono.refl _), ← hshape]

/-- Witness for claim C2: a concrete dirty client against the fresh
server; the first sync pushes its create, the second is a no-op with no
work units. -/
theorem sync_idempotent_witness :
    Sync.WF Sync.server0
  ∧ (Sync.calculateWork (Sync.sync Sync.demoClient Sync.server0).1
        (Sync.sync Sync.demoClient Sync.server0).2 = []
    ∧ Sync.sync (Sync.sync Sync.demoClient Sync.server0).1
        (Sync.sync Sync.demoClient Sync.server0).2
      = Sync.sync Sync.demoClient Sync.server0) :=
  ⟨by decide, sync_idempotent Sync.demoClient Sync.server0 (by decide)⟩

/-- Claim C3: in the two-cycle scenario (c1 moves `/a/` under `/b/` while
c2 moves `/b/` under `/a/`), after cross-syncing both clients' trees
contain exactly the paths `/`, `/b/` and `/b/a/`. -/
theorem two_cycle_resolution :
    List.Perm (Sync.allPaths Sync.scenarioTwoCycle.1.files) ["/", "/b/", "/b/a/"]
  ∧ List.Perm (Sync.allPaths Sync.scenarioTwoCycle.2.files) ["/", "/b/", "/b/a/"] := by
  decide

/-- Claim C4: in the three-cycle scenario (c1 moves a under b and b under
c, c2 moves c under a), after cross-syncing both clients' trees contain
exactly the paths `/`, `/c/`, `/c/b/` and `/c/b/a/`: only c2's move is
reverted. -/
theorem three_cycle_one_move_reverted :
    List.Perm (Sync.allPaths Sync.scenarioThreeCycle.1.files)
      ["/", "/c/", "/c/b/", "/c/b/a/"]
  ∧ List.Perm (Sync.allPaths Sync.scenarioThreeCycle.2.files)
      ["/", "/c/", "/c/b/", "/c/b/a/"] := by
  decide

/-- Claim C5: in the two-cycle scenario with renames on the first device
(c1 renames `/a/` to `/a2/` and `/b/` to `/b2/` before moving `/a2/` under
`/b2/`; c2 moves `/b/` under `/a/`), after cross-syncing both clients'
trees contain exactly the paths `/`, `/b2/` and `/b2/a2/`: reverting c2's
move keeps c1's renames. -/
theorem two_cycle_renames_preserved :
    List.Perm (Sync.allPaths Sync.scenarioTwoCycleRenames.1.files)
      ["/", "/b2/", "/b2/a2/"]
  ∧ List.Perm (Sync.allPaths Sync.scenarioTwoCycleRenames.2.files)
      ["/", "/b2/", "/b2/a2/"] := by
  decide

/-- Claim C6: in the two-cycle scenario where c2 also deletes `/a/` after
its move, after cross-syncing both clients' trees contain exactly the
paths `/` and `/b/`: the deletion of a wins over c1's move of a, and b
survives because c2's move of b is reverted. -/
theorem two_cycle_deletion_wins :
    List.Perm (Sync.allPaths Sync.scenarioTwoCycleDeletes.1.files) ["/", "/b/"]
  ∧ List.Perm (Sync.allPaths Sync.scenarioTwoCycleDeletes.2.files) ["/", "/b/"] := by
  decide

namespace Server

/-- A guarded update whose transformation keeps id and tombstone flag also
keeps the table's (id, deleted) column pair. -/
theorem applyGuarded_proj (files : List FileRow) (id oldMetadataVersion : Nat)
    (fileType : FileType) (g : FileRow → FileRow)
    (hg : ∀ r : FileRow, (g r).id = r.id ∧ (g r).deleted = r.deleted) :
    (applyGuarded files id oldMetadataVersion fileType g).map
        (fun r => (r.id, r.deleted))
      = files.map (fun r => (r.id, r.deleted)) := by
  unfold applyGuarded
  rw [List.map_map]
  apply List.map_congr_left
  intro r _
  by_cases h1 : (r.id == id) = true
  · by_cases h2 : mutGuard oldMetadataVersion fileType r = true
    · simp [Function.comp, h1, h2, (hg r).1, (hg r).2]
    · simp [Function.comp, h1, h2]
  · simp [Function.comp, h1]

/-- If the guard is false on every row with the requested id, the guarded
update leaves the table unchanged. -/
theorem applyGuarded_eq_self (files : List FileRow) (id oldMetadataVersion : Nat)
    (fileType : FileType) (g : FileRow → FileRow)
    (h : ∀ r ∈ files, r.id = id → mutGuard oldMetadataVersion fileType r = false) :
    applyGuarded files id oldMetadataVersion fileType g = files := by
  unfold applyGuarded
  have : ∀ r ∈ files,
      (if r.id == id then (if mutGuard oldMetadataVersion fileType r then g r else r) else r)
        = r := by
    intro r hr
    by_cases h1 : (r.id == id) = true
    · have := h r hr (by simpa using h1)
      simp [h1, this]
    · simp [h1]
  calc files.map _ = files.map (fun r => r) := List.map_congr_left this
    _ = files := List.map_id files

/-- A row selected alone by the id filter is the unique row with that id. -/
theorem filter_singleton_mem (files : List FileRow) (id : Nat) (row : FileRow)
    (hrow : files.filter (fun r => r.id == id) = [row]) :
    ∀ r ∈ files, r.id = id → r = row := by
  intro r hr hid
  have hmem : r ∈ files.filter (fun r => r.id == id) := by
    rw [List.mem_filter]
    exact ⟨hr, by simpa using hid⟩
  rw [hrow] at hmem
  simpa using hmem

/-- A version-checked mutation on an existing, live row of the expected
type whose stored version differs from the supplied one returns
`IncorrectOldVersion` and leaves the table untouched, whatever the
update transformation is. -/
theorem runMutation_incorrect_old_version (files : List FileRow)
    (id oldMetadataVersion : Nat) (fileType : FileType) (row : FileRow)
    (g : FileRow → FileRow)
    (hrow : files.filter (fun r => r.id == id) = [row])
    (hdel : row.deleted = false)
    (hft : row.isFolder = fileType.toIsFolder)
    (hver : row.metadataVersion ≠ oldMetadataVersion) :
    runMutation files id oldMetadataVersion fileType g
      = (.error .IncorrectOldVersion, files) := by
  have hguard : ∀ r ∈ files, r.id = id →
      mutGuard oldMetadataVersion fileType r = false := by
    intro r hr hid
    have := filter_singleton_mem files id row hrow r hr hid
    subst this
    simp [mutGuard, hver]
  unfold runMutation
  rw [applyGuarded_eq_self files id oldMetadataVersion fileType g hguard, hrow]
  simp only [rowsToRow]
  unfold FileUpdateResponse.validate updateResponse
  simp [hdel, hft, hver]

end Server

/-- Claim C7: server tombstone monotonicity.  `move_file`, `rename_file`
and `change_document_content_version` leave every row's deleted flag
unchanged; `delete_file` keeps each row's id, never clears a set tombstone,
and when it changes the flag at all it sets it to true; `create_file`
keeps all existing rows and only ever adds rows whose deleted flag is
false.  Hence once a row's deleted flag is true, no server mutation ever
sets it back to false. -/
theorem server_tombstone_monotonic (files : List Server.FileRow)
    (accounts : List (String × String))
    (now id oldMetadataVersion parent : Nat) (fileType : Server.FileType)
    (accessKey name owner : String) :
    ((Server.move_file files now id oldMetadataVersion fileType parent accessKey).2.map
        (fun r => (r.id, r.deleted)) = files.map (fun r => (r.id, r.deleted)))
  ∧ ((Server.rename_file files now id oldMetadataVersion fileType name).2.map
        (fun r => (r.id, r.deleted)) = files.map (fun r => (r.id, r.deleted)))
  ∧ ((Server.change_document_content_version files now id oldMetadataVersion).2.map
        (fun r => (r.id, r.deleted)) = files.map (fun r => (r.id, r.deleted)))
  ∧ List.Forall₂ (fun o n : Server.FileRow => o.id = n.id
        ∧ (o.deleted = true → n.deleted = true)
        ∧ (n.deleted ≠ o.deleted → n.deleted = true))
      files (Server.delete_file files now id oldMetadataVersion fileType).2
  ∧ ∃ added,
      (Server.create_file files accounts now id parent fileType name owner accessKey).2
        = files ++ added ∧ ∀ r ∈ added, r.deleted = false := by
  refine ⟨?_, ?_, ?_, ?_, ?_⟩
  · exact Server.applyGuarded_proj files id oldMetadataVersion fileType _
      (fun r => ⟨rfl, rfl⟩)
  · exact Server.applyGuarded_proj files id oldMetadataVersion fileType _
      (fun r => ⟨rfl, rfl⟩)
  · exact Server.applyGuarded_proj files id oldMetadataVersion .Document _
      (fun r => ⟨rfl, rfl⟩)
  · show List.Forall₂ _ files (Server.applyGuarded files id oldMetadataVersion fileType _)
    unfold Server.applyGuarded
    rw [List.forall₂_map_right_iff]
    rw [List.forall₂_same]
    intro r _
    by_cases h1 : (r.id == id) = true
    · by_cases h2 : Server.mutGuard oldMetadataVersion fileType r = true
      · simp [h1, h2]
      · simp [h1, h2]
    · simp [h1]
  · unfold Server.create_file
    split
    · exact ⟨[], by simp, by simp⟩
    · split
      · exact ⟨[], by simp, by simp⟩
      · split
        · exact ⟨[], by simp, by simp⟩
        · split
          · exact ⟨[], by simp, by simp⟩
          · exact ⟨[_], rfl, by intro r hr; simp at hr; subst hr; rfl⟩

/-- Claim C8: version-checked mutations fail atomically.  If the row with
the requested id exists, is not deleted and has the expected file type but
its stored metadata version differs from the supplied old version, then
`move_file`, `rename_file`, `delete_file` and (for documents)
`change_document_content_version` all return `IncorrectOldVersion` and the
table is unchanged. -/
theorem version_checked_mutations_atomic (files : List Server.FileRow)
    (now id oldMetadataVersion parent : Nat) (fileType : Server.FileType)
    (row : Server.FileRow) (accessKey name : String)
    (hrow : files.filter (fun r => r.id == id) = [row])
    (hdel : row.deleted = false)
    (hft : row.isFolder = fileType.toIsFolder)
    (hver : row.metadataVersion ≠ oldMetadataVersion) :
    Server.move_file files now id oldMetadataVersion fileType parent accessKey
        = (.error .IncorrectOldVersion, files)
  ∧ Server.rename_file files now id oldMetadataVersion fileType name
        = (.error .IncorrectOldVersion, files)
  ∧ Server.delete_file files now id oldMetadataVersion fileType
        = (.error .IncorrectOldVersion, files)
  ∧ (fileType = .Document →
      Server.change_document_content_version files now id oldMetadataVersion
        = (.error .IncorrectOldVersion, files)) := by
  refine ⟨?_, ?_, ?_, ?_⟩
  · unfold Server.move_file
    rw [Server.runMutation_incorrect_old_version files id oldMetadataVersion fileType row _
      hrow hdel hft hver]
    rfl
  · unfold Server.rename_file
    rw [Server.runMutation_incorrect_old_version files id oldMetadataVersion fileType row _
      hrow hdel hft hver]
    rfl
  · unfold Server.delete_file
    rw [Server.runMutation_incorrect_old_version files id oldMetadataVersion fileType row _
      hrow hdel hft hver]
    rfl
  · intro hdoc
    subst hdoc
    unfold Server.change_document_content_version
    rw [Server.runMutation_incorrect_old_version files id oldMetadataVersion .Document row _
      hrow hdel hft hver]
    rfl

/-- A concrete live folder row used to witness claim C8. -/
def demoRow : Server.FileRow :=
  ⟨1, 0, "", true, "f", "bob", false, 5, 5⟩

/-- Witness for claim C8: the hypotheses hold of the one-row table
`[demoRow]` with supplied old version 6, and the conclusion follows by the
theorem. -/
theorem version_checked_mutations_atomic_witness :
    (([demoRow].filter (fun r => r.id == 1) = [demoRow])
      ∧ demoRow.deleted = false
      ∧ demoRow.isFolder = Server.FileType.Folder.toIsFolder
      ∧ demoRow.metadataVersion ≠ 6)
  ∧ (Server.move_file [demoRow] 9 1 6 .Folder 0 "k" = (.error .IncorrectOldVersion, [demoRow])
    ∧ Server.rename_file [demoRow] 9 1 6 .Folder "g" = (.error .IncorrectOldVersion, [demoRow])
    ∧ Server.delete_file [demoRow] 9 1 6 .Folder = (.error .IncorrectOldVersion, [demoRow])
    ∧ (Server.FileType.Folder = .Document →
        Server.change_document_content_version [demoRow] 9 1 6
          = (.error .IncorrectOldVersion, [demoRow]))) :=
  ⟨⟨by decide, by decide, by decide, by decide⟩,
    version_checked_mutations_atomic [demoRow] 9 1 6 0 .Folder demoRow "k" "g"
      (by decide) (by decide) (by decide) (by decide)⟩

/-- Claim C9: username collision.  A `new_account` with a username no
existing account holds succeeds; repeating it with the same username hits
the unique constraint and returns `UsernameTaken`; and the client-side
interpretation of the server's 409 `username_taken` response is the
`UsernameTaken` error. -/
theorem username_collision (accounts : List (String × String))
    (username pk1 pk2 : String)
    (hfresh : ∀ a ∈ accounts, a.1 ≠ username) :
    (Server.new_account accounts username pk1).1 = .ok ()
  ∧ (Server.new_account (Server.new_account accounts username pk1).2 username pk2).1
      = .error .UsernameTaken
  ∧ Core.interpretNewAccountResponse 409 "username_taken" = .error .UsernameTaken := by
  have hany : accounts.any (fun a => a.1 == username) = false := by
    rw [List.any_eq_false]
    intro a ha
    simpa using hfresh a ha
  refine ⟨?_, ?_, ?_⟩
  · simp [Server.new_account, hany]
  · have h2 : (Server.new_account accounts username pk1).2
        = accounts ++ [(username, pk1)] := by
      simp [Server.new_account, hany]
    rw [h2]
    have : (accounts ++ [(username, pk1)]).any (fun a => a.1 == username) = true := by
      rw [List.any_eq_true]
      exact ⟨(username, pk1), by simp, by simp⟩
    simp [Server.new_account, this]
  · rfl

/-- Witness for claim C9: the fresh-username hypothesis holds of the empty
accounts table, and the conclusion follows by the theorem at username
`bob`. -/
theorem username_collision_witness :
    (∀ a ∈ ([] : List (String × String)), a.1 ≠ "bob")
  ∧ ((Server.new_account [] "bob" "k1").1 = .ok ()
    ∧ (Server.new_account (Server.new_account [] "bob" "k1").2 "bob" "k2").1
        = .error .UsernameTaken
    ∧ Core.interpretNewAccountResponse 409 "username_taken"
        = .error .UsernameTaken) :=
  ⟨by simp, username_collision [] "bob" "k1" "k2" (by simp)⟩

/-- Claim C10, evaluated at the failing input: `AesImpl::decrypt` panics
(rather than returning an `AesDecryptionFailed` error) when the key's
`key` field is not valid base64, because the key decode result is
`.unwrap()`ed. -/
theorem aes_decrypt_panics_on_invalid_key :
    Crypto.AesImpl.decrypt Crypto.trivialPrims ⟨"!"⟩ ⟨"", ""⟩
      = Crypto.RunResult.panicked := by
  rfl

end Lockbook
